import Mathlib

/-!
Verification development for the AURA ship-emergency game UI
(`src/src/App.tsx`).  The definitions below are a shallow embedding of the
glue logic of that component: the JSON value model, the status store and
its persistence, the recursive status applier, the fenced-JSON extractor,
the countdown timer state machine, and the turn-completion / error paths
of the chat session controller.
-/

/-- A parsed JSON value, as produced by `JSON.parse`.  Numbers are modelled
as integers (no claim below depends on fractional values).  An object is a
list of key/value fields; keys are assumed distinct, as `JSON.parse`
produces. -/
inductive Json where
  | null
  | bool (b : Bool)
  | num (n : Int)
  | str (s : String)
  | arr (elems : List Json)
  | obj (fields : List (String × Json))

/-- String key constants used by the applier (`App.tsx` lines 156-163). -/
def kSystem : String := "system"

def kName : String := "name"

def kStatus : String := "status"

def kSystems : String := "systems"

def strEmpty : String := ""

/-- JavaScript truthiness of a parsed JSON value: `null`, `false`, `0` and
the empty string are falsy; arrays and objects are always truthy
(models the `if (!data)` and `data.system && data.status` tests). -/
def jsTruthy : Json → Bool
  | Json.null => false
  | Json.bool b => b
  | Json.num n => n != 0
  | Json.str s => s != strEmpty
  | Json.arr _ => true
  | Json.obj _ => true

/-- Truthiness of a property access: a missing property is `undefined`,
which is falsy. -/
def truthyF : Option Json → Bool
  | none => false
  | some v => jsTruthy v

/-- `typeof v === 'object'` for a parsed JSON value: true for objects,
arrays and `null`. -/
def isObjLike : Json → Bool
  | Json.obj _ => true
  | Json.arr _ => true
  | Json.null => true
  | _ => false

/-- Property lookup `data.k` on an object's field list. -/
def getF : List (String × Json) → String → Option Json
  | [], _ => none
  | (k0, v) :: rest, k => if k0 = k then some v else getF rest k

def strNull : String := "null"

def strTrue : String := "true"

def strFalse : String := "false"

def strObjObj : String := "[object Object]"

def sepComma : String := ","

mutual
/-- JavaScript `String(v)` applied to a parsed JSON value: strings pass
through, numbers and booleans print, arrays join their elements with
commas (`null` printing as the empty string inside arrays), plain objects
print as `[object Object]`. -/
def jsToString : Json → String
  | Json.null => strNull
  | Json.bool true => strTrue
  | Json.bool false => strFalse
  | Json.num n => toString n
  | Json.str s => s
  | Json.arr xs => String.intercalate sepComma (jsArrElems xs)
  | Json.obj _ => strObjObj

/-- Element strings of `Array.prototype.toString` (`join(",")`). -/
def jsArrElems : List Json → List String
  | [] => []
  | x :: xs =>
    (match x with
      | Json.null => strEmpty
      | y => jsToString y) :: jsArrElems xs
end

/-- The browser `localStorage` slot holding the serialized status map
(`STORAGE_KEY`): it can be absent, hold unparseable text, be inaccessible
(`getItem` throws), or hold the serialization of a map. -/
inductive Storage where
  | missing
  | corrupt
  | inaccessible
  | stored (m : List (String × String))

/-- The status map: subsystem name to status string, insertion ordered,
mirroring a JS object used as `Record<string, string>`. -/
def getS : List (String × String) → String → Option String
  | [], _ => none
  | (k0, v) :: rest, k => if k0 = k then some v else getS rest k

/-- JS computed-key write `{ ...m, [k]: v }` restricted to one key: an
existing entry for `k` is overwritten in place, a new key is appended. -/
def setKey : List (String × String) → String → String → List (String × String)
  | [], k, v => [(k, v)]
  | (k0, v0) :: rest, k, v =>
    if k0 = k then (k, v) :: rest else (k0, v0) :: setKey rest k v

/-- Object spread `{ ...a, ...b }`: entries of `b` override entries of
`a`. -/
def objSpread (a b : List (String × String)) : List (String × String) :=
  b.foldl (fun acc p => setKey acc p.1 p.2) a

/-- The fixed default status map (`defaultSystemStatuses`,
`App.tsx` lines 75-79). -/
def defaultSystemStatuses : List (String × String) :=
  [("PROPULSION", "CRITICAL"), ("LIFE SUPPORT", "CRITICAL"),
   ("NAVIGATION", "CRITICAL")]

/-- `loadStatuses` (`App.tsx` lines 81-93), returning the loaded map
together with whether `console.warn` was invoked.  A stored map is merged
over the defaults; missing storage silently yields the defaults; corrupt
content (`JSON.parse` throws) or inaccessible storage (`getItem` throws)
is caught, warned about, and yields the defaults. -/
def loadStatuses : Storage → List (String × String) × Bool
  | Storage.stored m => (objSpread defaultSystemStatuses m, false)
  | Storage.missing => (defaultSystemStatuses, false)
  | Storage.corrupt => (defaultSystemStatuses, true)
  | Storage.inaccessible => (defaultSystemStatuses, true)

/-- `persistStatuses` (`App.tsx` lines 131-138): a successful
`localStorage.setItem` replaces the slot's content with the serialization
of the map being saved. -/
def persistStatuses (next : List (String × String)) (_ : Storage) : Storage :=
  Storage.stored next

/-- The applier-visible application state: the in-memory status map and
the storage slot. -/
structure AppState where
  statuses : List (String × String)
  storage : Storage

/-- `String.prototype.toUpperCase`, modelled character-wise over the
string's character sequence (ASCII-faithful, and computable by the
kernel). -/
def jsUpper (s : String) : String :=
  String.mk (s.data.map Char.toUpper)

/-- `updateSystemStatus` (`App.tsx` lines 140-148): upper-cases key and
value, writes the pair into the map, and immediately persists the new
map. -/
def updateSystemStatus (system status : String) (st : AppState) : AppState :=
  let key := jsUpper system
  let value := jsUpper status
  let next := setKey st.statuses key value
  { statuses := next, storage := persistStatuses next st.storage }

/-- The `if (data.system && data.status)` branch of
`applyStatusesFromData` (`App.tsx` lines 156-158). -/
def recordSystemPair (fields : List (String × Json)) (st : AppState) : AppState :=
  match getF fields kSystem, getF fields kStatus with
  | some sv, some tv =>
    if jsTruthy sv && jsTruthy tv then
      updateSystemStatus (jsToString sv) (jsToString tv) st
    else st
  | _, _ => st

/-- The `if (data.name && data.status)` branch of `applyStatusesFromData`
(`App.tsx` lines 159-161).  Note that in the source this is a second
independent `if`, not an `else if`. -/
def recordNamePair (fields : List (String × Json)) (st : AppState) : AppState :=
  match getF fields kName, getF fields kStatus with
  | some nv, some tv =>
    if jsTruthy nv && jsTruthy tv then
      updateSystemStatus (jsToString nv) (jsToString tv) st
    else st
  | _, _ => st

/-- Both conditional recordings performed at one object node, in source
order: first the `system` pair, then the `name` pair. -/
def nodeRecord (fields : List (String × Json)) (st : AppState) : AppState :=
  recordNamePair fields (recordSystemPair fields st)

theorem sizeOf_getF {fields : List (String × Json)} {k : String} {v : Json}
    (h : getF fields k = some v) : sizeOf v < sizeOf fields := by
  induction fields with
  | nil => simp [getF] at h
  | cons hd tl ih =>
    obtain ⟨k0, v0⟩ := hd
    by_cases hk : k0 = k
    · simp [getF, hk] at h
      subst h
      simp
      omega
    · simp [getF, hk] at h
      have := ih h
      simp
      omega

mutual
/-- `applyStatusesFromData` (`App.tsx` lines 150-170).  Falsy scalars hit
the `if (!data) return` guard; truthy scalars fall through every test
(property access yields `undefined` and `typeof` is not `'object'`), so
every non-array, non-object value leaves the state unchanged.  An array is
traversed element-wise (`data.forEach`).  At an object node the two
conditional recordings fire, then the elements of an array-valued
`systems` field are traversed, then every field value that satisfies
`typeof value === 'object'` is traversed (`Object.values`). -/
def applyStatusesFromData : Json → AppState → AppState
  | Json.null, st => st
  | Json.bool _, st => st
  | Json.num _, st => st
  | Json.str _, st => st
  | Json.arr elems, st => applyList elems st
  | Json.obj fields, st =>
    applyFields fields (applySystemsField fields (nodeRecord fields st))
termination_by d _ => sizeOf d

/-- `data.forEach(applyStatusesFromData)` / `data.systems.forEach(...)`. -/
def applyList : List Json → AppState → AppState
  | [], st => st
  | e :: rest, st => applyList rest (applyStatusesFromData e st)
termination_by l _ => sizeOf l

/-- The generic recursion `Object.values(data).forEach(...)`: only values
with `typeof value === 'object'` are recursed into. -/
def applyFields : List (String × Json) → AppState → AppState
  | [], st => st
  | (_, v) :: rest, st =>
    applyFields rest (if isObjLike v then applyStatusesFromData v st else st)
termination_by l _ => sizeOf l

/-- The `if (Array.isArray(data.systems))` recursion
(`App.tsx` lines 162-164). -/
def applySystemsField (fields : List (String × Json)) (st : AppState) : AppState :=
  match h : getF fields kSystems with
  | some (Json.arr es) => applyList es st
  | _ => st
termination_by sizeOf fields
decreasing_by
  have := sizeOf_getF h
  simp at this
  omega
end

/-- The backtick character, first character of a code fence. -/
def fenceChar : Char := '`'

/-- The opening fence matched by the regex in `extractJson`
(`App.tsx` line 193): three backticks, the tag `json`, a newline. -/
def openFence : List Char := [fenceChar, fenceChar, fenceChar, 'j', 's', 'o', 'n', '\n']

/-- The closing fence of the same regex: a newline then three backticks. -/
def closeFence : List Char := ['\n', fenceChar, fenceChar, fenceChar]

/-- Split a character list at the first occurrence of `pat`, returning the
text before the occurrence and the text after it.  This is the semantics
of a leftmost regex match combined with a lazy body: the extractor's match
starts right after the first opening fence, and its body ends at the first
closing fence after that. -/
def splitOnSub (pat : List Char) : List Char → Option (List Char × List Char)
  | [] => if pat.isPrefixOf ([] : List Char) then some ([], []) else none
  | c :: rest =>
    if pat.isPrefixOf (c :: rest) then some ([], (c :: rest).drop pat.length)
    else
      match splitOnSub pat rest with
      | some (pre, post) => some (c :: pre, post)
      | none => none

/-- The capture group of the first match of the regex
``/```json\n([\s\S]*?)\n```/`` in the text, if any. -/
def firstFencedJsonBlock (text : List Char) : Option (List Char) :=
  match splitOnSub openFence text with
  | some (_, rest) =>
    match splitOnSub closeFence rest with
    | some (content, _) => some content
    | none => none
  | none => none

/-- `extractJson` (`App.tsx` lines 192-202), parameterized by the
platform's `JSON.parse` (returning `none` where `JSON.parse` would throw):
if the regex matches, the captured content is parsed; a parse failure is
caught and yields `null`; no match yields `null`. -/
def extractJson (parse : List Char → Option Json) (text : List Char) : Option Json :=
  match firstFencedJsonBlock text with
  | some content =>
    match parse content with
    | some v => some v
    | none => none
  | none => none

/-- `String.prototype.includes`: whether `pat` occurs in `text`. -/
def containsSub (pat text : List Char) : Bool :=
  (splitOnSub pat text).isSome

/-- `text.toUpperCase()`. -/
def upperText (text : List Char) : List Char :=
  text.map Char.toUpper

/-- The victory marker tested by `handleSend` (`App.tsx` line 304). -/
def missionSuccessMarker : List Char := "MISSION SUCCESS".toList

/-- `GAME_TIME_LIMIT` (`App.tsx` line 18). -/
def GAME_TIME_LIMIT : Int := 600

/-- The game-session state driven by the timer and the session controller:
remaining seconds, the active/over/victory flags, and whether the single
interval is scheduled. -/
structure GameState where
  timeLeft : Int
  gameActive : Bool
  gameOver : Bool
  victory : Bool
  timerRunning : Bool

/-- `endGame` (`App.tsx` lines 264-269): clears the interval and marks the
session over with the given victory flag. -/
def endGame (isVictory : Bool) (g : GameState) : GameState :=
  { g with
    timerRunning := false
    gameActive := false
    gameOver := true
    victory := isVictory }

/-- `startTimer` (`App.tsx` lines 251-262): any previous interval is
cleared and a fresh one is scheduled. -/
def startTimer (g : GameState) : GameState :=
  { g with timerRunning := true }

/-- One interval tick (`App.tsx` lines 253-260): if the remaining time
would drop to zero or below it is clamped to zero and the game ends in a
loss; otherwise it decrements by one. -/
def tick (g : GameState) : GameState :=
  if g.timeLeft ≤ 1 then { endGame false g with timeLeft := 0 }
  else { g with timeLeft := g.timeLeft - 1 }

/-- Run up to `n` interval firings; a cleared interval fires no more. -/
def runTimer : Nat → GameState → GameState
  | 0, g => g
  | n + 1, g => if g.timerRunning then runTimer n (tick g) else g

/-- The session state set by the synchronous prologue of `startGame`
(`App.tsx` lines 204-213): the timer value is reset to the limit and the
flags are reset; the interval itself is only scheduled after the first
stream completes. -/
def startGameReset : GameState :=
  { timeLeft := GAME_TIME_LIMIT
    gameActive := true
    gameOver := false
    victory := false
    timerRunning := false }

/-- The session state right after `startTimer` runs on a fresh session:
this is where the countdown of a play-through begins. -/
def initialRun : GameState :=
  startTimer startGameReset

/-- The stream-completion logic of `startGame` (`App.tsx` lines 236-242):
extract a JSON payload, apply it to the status state, start the timer.
There is no victory-marker test on this path. -/
def startGameComplete (parse : List Char → Option Json) (fullText : List Char)
    (st : AppState) (g : GameState) : AppState × GameState :=
  let st1 :=
    match extractJson parse fullText with
    | some d => applyStatusesFromData d st
    | none => st
  (st1, startTimer g)

/-- The stream-completion logic of `handleSend` (`App.tsx` lines 298-306):
extract and apply a JSON payload, then end the game in victory when the
upper-cased accumulated text contains the victory marker. -/
def handleSendComplete (parse : List Char → Option Json) (fullText : List Char)
    (st : AppState) (g : GameState) : AppState × GameState :=
  let st1 :=
    match extractJson parse fullText with
    | some d => applyStatusesFromData d st
    | none => st
  let g1 :=
    if containsSub missionSuccessMarker (upperText fullText) then endGame true g
    else g
  (st1, g1)

/-- Transcript roles (`interface Message`, `App.tsx` lines 55-58). -/
inductive Role where
  | user
  | model
deriving DecidableEq

/-- A transcript message. -/
structure Message where
  role : Role
  text : String

/-- The synthetic message of the `startGame` catch block
(`App.tsx` line 245). -/
def neuralLinkFailureMsg : Message :=
  ⟨Role.model, "ERROR: NEURAL LINK FAILURE. REBOOT REQUIRED."⟩

/-- The synthetic message of the `handleSend` catch block
(`App.tsx` line 309). -/
def commInterruptedMsg : Message :=
  ⟨Role.model, "ERROR: COMMUNICATION INTERRUPTED. RETRY COMMAND."⟩

/-- Effect of a thrown network or API error inside `startGame`
(`App.tsx` lines 243-248): the transcript (reset to empty by the
prologue) is set to the single synthetic failure message, the `finally`
clause clears `loading`, and the game flags set by the prologue are left
as they are (in particular the session stays active). -/
def startGameOnError (g : GameState) (_msgs : List Message) :
    GameState × List Message × Bool :=
  ({ g with
      timeLeft := GAME_TIME_LIMIT
      gameActive := true
      gameOver := false
      victory := false },
   [neuralLinkFailureMsg], false)

/-- Effect of a thrown network or API error inside `handleSend`
(`App.tsx` lines 307-312): the synthetic failure message is appended and
the `finally` clause clears `loading`; the game state is untouched. -/
def handleSendOnError (msgs : List Message) (g : GameState) :
    GameState × List Message × Bool :=
  (g, msgs ++ [commInterruptedMsg], false)

/-- Whether the command input accepts a submission: the form control is
disabled while `!gameActive || loading` (`App.tsx` line 465). -/
def inputEnabled (g : GameState) (loading : Bool) : Bool :=
  g.gameActive && !loading

/-- The traversal of `applyStatusesFromData` reaches an object node that
records the pair `(id, status)`: either the node itself carries a truthy
`system`/`status` or `name`/`status` field pair (`id` and `status` being
the `String(...)` images of the field values), or the pair is recorded
inside an array element, or inside a field value that the generic
recursion follows. -/
inductive Records : Json → String → String → Prop where
  | sys {fields : List (String × Json)} {sv tv : Json} :
      getF fields kSystem = some sv → getF fields kStatus = some tv →
      jsTruthy sv = true → jsTruthy tv = true →
      Records (Json.obj fields) (jsToString sv) (jsToString tv)
  | nm {fields : List (String × Json)} {nv tv : Json} :
      getF fields kName = some nv → getF fields kStatus = some tv →
      jsTruthy nv = true → jsTruthy tv = true →
      Records (Json.obj fields) (jsToString nv) (jsToString tv)
  | arrElem {elems : List Json} {e : Json} {id stv : String} :
      e ∈ elems → Records e id stv → Records (Json.arr elems) id stv
  | fieldVal {fields : List (String × Json)} {k : String} {v : Json} {id stv : String} :
      (k, v) ∈ fields → isObjLike v = true → Records v id stv →
      Records (Json.obj fields) id stv
theorem getS_setKey (m : List (String × String)) (k v q : String) :
    getS (setKey m k v) q = if q = k then some v else getS m q := by
  induction m with
  | nil =>
    by_cases hq : q = k
    · simp [setKey, getS, hq]
    · have hkq : ¬k = q := fun h => hq h.symm
      simp [setKey, getS, hq, hkq]
  | cons hd tl ih =>
    obtain ⟨k0, v0⟩ := hd
    by_cases h0 : k0 = k
    · subst h0
      by_cases hq : q = k0
      · simp [setKey, getS, hq]
      · have hkq : ¬k0 = q := fun h => hq h.symm
        simp [setKey, getS, hq, hkq]
    · by_cases hq : q = k0
      · subst hq
        simp [setKey, getS, h0]
      · have h0q : ¬k0 = q := fun h => hq h.symm
        simp [setKey, getS, h0, h0q, ih]

theorem getS_setKey_isSome (m : List (String × String)) (k v q : String)
    (h : (getS m q).isSome = true) : (getS (setKey m k v) q).isSome = true := by
  rw [getS_setKey]
  by_cases hq : q = k <;> simp [hq, h]

theorem objSpread_cons (a : List (String × String)) (k v : String)
    (tl : List (String × String)) :
    objSpread a ((k, v) :: tl) = objSpread (setKey a k v) tl := by
  simp [objSpread]

theorem getS_objSpread_isSome (a b : List (String × String)) (q : String)
    (h : (getS a q).isSome = true) : (getS (objSpread a b) q).isSome = true := by
  induction b generalizing a with
  | nil => simpa [objSpread] using h
  | cons hd tl ih =>
    obtain ⟨k, v⟩ := hd
    rw [objSpread_cons]
    exact ih _ (getS_setKey_isSome a k v q h)

theorem getS_eq_none (m : List (String × String)) (q : String)
    (h : ∀ p ∈ m, p.1 ≠ q) : getS m q = none := by
  induction m with
  | nil => simp [getS]
  | cons hd tl ih =>
    obtain ⟨k, v⟩ := hd
    have hk : k ≠ q := h (k, v) (by simp)
    have htl : ∀ p ∈ tl, p.1 ≠ q := fun p hp => h p (by simp [hp])
    simp [getS, hk, ih htl]

theorem getS_objSpread (a b : List (String × String)) (q : String)
    (hnd : (b.map Prod.fst).Nodup) :
    getS (objSpread a b) q = ((getS b q).orElse fun _ => getS a q) := by
  induction b generalizing a with
  | nil => simp [objSpread, getS, Option.orElse]
  | cons hd tl ih =>
    obtain ⟨k, v⟩ := hd
    simp only [List.map_cons, List.nodup_cons] at hnd
    rw [objSpread_cons, ih _ hnd.2]
    by_cases hq : q = k
    · subst hq
      have htl : getS tl q = none := by
        apply getS_eq_none
        intro p hp hpq
        exact hnd.1 (by
          rw [← hpq]
          exact List.mem_map_of_mem Prod.fst hp)
      simp [htl, getS, getS_setKey, Option.orElse]
    · have hkq : ¬k = q := fun h => hq h.symm
      rw [getS_setKey]
      simp only [hq, if_false]
      cases hget : getS tl q <;> simp [getS, hkq, hget, Option.orElse]

/-- State evolution invariant of the applier: no status key is ever
removed, and the state is either untouched or has just been persisted
(the storage slot holds the serialization of the current map). -/
def StPres (a b : AppState) : Prop :=
  (∀ k, (getS a.statuses k).isSome = true → (getS b.statuses k).isSome = true) ∧
  (b = a ∨ b.storage = Storage.stored b.statuses)

theorem StPres_refl (a : AppState) : StPres a a :=
  ⟨fun _ h => h, Or.inl rfl⟩

theorem StPres_trans {a b c : AppState} (hab : StPres a b) (hbc : StPres b c) :
    StPres a c := by
  refine ⟨fun k h => hbc.1 k (hab.1 k h), ?_⟩
  rcases hbc.2 with h | h
  · rw [h]
    exact hab.2
  · exact Or.inr h

theorem StPres_update (sys stt : String) (a : AppState) :
    StPres a (updateSystemStatus sys stt a) := by
  constructor
  · intro k h
    simpa [updateSystemStatus] using
      getS_setKey_isSome a.statuses (jsUpper sys) (jsUpper stt) k h
  · right
    simp [updateSystemStatus, persistStatuses]

theorem StPres_recordSystemPair (fields : List (String × Json)) (st : AppState) :
    StPres st (recordSystemPair fields st) := by
  unfold recordSystemPair
  split
  · split
    · exact StPres_update _ _ _
    · exact StPres_refl _
  · exact StPres_refl _

theorem StPres_recordNamePair (fields : List (String × Json)) (st : AppState) :
    StPres st (recordNamePair fields st) := by
  unfold recordNamePair
  split
  · split
    · exact StPres_update _ _ _
    · exact StPres_refl _
  · exact StPres_refl _

theorem StPres_nodeRecord (fields : List (String × Json)) (st : AppState) :
    StPres st (nodeRecord fields st) :=
  StPres_trans (StPres_recordSystemPair fields st)
    (StPres_recordNamePair fields (recordSystemPair fields st))

theorem StPres_apply_all (n : Nat) :
    (∀ d st, sizeOf d ≤ n → StPres st (applyStatusesFromData d st)) ∧
    (∀ l st, sizeOf l ≤ n → StPres st (applyList l st)) ∧
    (∀ fs st, sizeOf fs ≤ n → StPres st (applyFields fs st)) ∧
    (∀ fs st, sizeOf fs ≤ n → StPres st (applySystemsField fs st)) := by
  induction n with
  | zero =>
    refine ⟨fun d st h => ?_, fun l st h => ?_, fun fs st h => ?_, fun fs st h => ?_⟩
    · cases d <;> simp at h
    · cases l <;> simp at h
    · cases fs <;> simp at h
    · cases fs <;> simp at h
  | succ n ih =>
    obtain ⟨ihd, ihl, ihf, ihs⟩ := ih
    have hD : ∀ d st, sizeOf d ≤ n + 1 → StPres st (applyStatusesFromData d st) := by
      intro d st hle
      cases d with
      | null => simp only [applyStatusesFromData]; exact StPres_refl st
      | bool b => simp only [applyStatusesFromData]; exact StPres_refl st
      | num m => simp only [applyStatusesFromData]; exact StPres_refl st
      | str s => simp only [applyStatusesFromData]; exact StPres_refl st
      | arr elems =>
        simp only [applyStatusesFromData]
        apply ihl
        simp at hle
        omega
      | obj fields =>
        simp only [applyStatusesFromData]
        have hsz : sizeOf fields ≤ n := by
          simp at hle
          omega
        exact StPres_trans
          (StPres_trans (StPres_nodeRecord fields st) (ihs fields _ hsz))
          (ihf fields _ hsz)
    have hL : ∀ l st, sizeOf l ≤ n + 1 → StPres st (applyList l st) := by
      intro l st hle
      cases l with
      | nil => simp only [applyList]; exact StPres_refl st
      | cons e rest =>
        simp only [applyList]
        simp at hle
        exact StPres_trans (ihd e st (by omega)) (ihl rest _ (by omega))
    have hF : ∀ fs st, sizeOf fs ≤ n + 1 → StPres st (applyFields fs st) := by
      intro fs st hle
      cases fs with
      | nil => simp only [applyFields]; exact StPres_refl st
      | cons p rest =>
        obtain ⟨k, v⟩ := p
        simp only [applyFields]
        simp at hle
        by_cases hv : isObjLike v = true
        · simp only [hv, if_true]
          exact StPres_trans (ihd v st (by omega)) (ihf rest _ (by omega))
        · simp only [hv, if_false]
          exact ihf rest st (by omega)
    have hS : ∀ fs st, sizeOf fs ≤ n + 1 → StPres st (applySystemsField fs st) := by
      intro fs st hle
      rw [applySystemsField.eq_def]
      split
      · rename_i es hget
        apply ihl
        have := sizeOf_getF hget
        simp at this
        omega
      · exact StPres_refl st
    exact ⟨hD, hL, hF, hS⟩

theorem StPres_apply (d : Json) (st : AppState) :
    StPres st (applyStatusesFromData d st) :=
  (StPres_apply_all (sizeOf d)).1 d st le_rfl

theorem StPres_applyList (l : List Json) (st : AppState) :
    StPres st (applyList l st) :=
  (StPres_apply_all (sizeOf l)).2.1 l st le_rfl

theorem StPres_applyFields (fs : List (String × Json)) (st : AppState) :
    StPres st (applyFields fs st) :=
  (StPres_apply_all (sizeOf fs)).2.2.1 fs st le_rfl

theorem StPres_applySystemsField (fs : List (String × Json)) (st : AppState) :
    StPres st (applySystemsField fs st) :=
  (StPres_apply_all (sizeOf fs)).2.2.2 fs st le_rfl

theorem applyList_append (a b : List Json) (st : AppState) :
    applyList (a ++ b) st = applyList b (applyList a st) := by
  induction a generalizing st with
  | nil => simp only [List.nil_append, applyList]
  | cons e rest ih =>
    simp only [List.cons_append, applyList]
    exact ih _

theorem applyFields_append (a b : List (String × Json)) (st : AppState) :
    applyFields (a ++ b) st = applyFields b (applyFields a st) := by
  induction a generalizing st with
  | nil => simp only [List.nil_append, applyFields]
  | cons p rest ih =>
    obtain ⟨k, v⟩ := p
    simp only [List.cons_append, applyFields]
    exact ih _

theorem records_gives_key {d : Json} {id stv : String} (h : Records d id stv) :
    ∀ st, (getS ((applyStatusesFromData d st).statuses) (jsUpper id)).isSome = true := by
  induction h with
  | sys hsv htv htsv httv =>
    rename_i fields sv tv
    intro st
    simp only [applyStatusesFromData]
    apply (StPres_applyFields fields _).1
    apply (StPres_applySystemsField fields _).1
    apply (StPres_recordNamePair fields _).1
    unfold recordSystemPair
    rw [hsv, htv]
    simp [htsv, httv, updateSystemStatus, getS_setKey]
  | nm hnv htv htnv httv =>
    rename_i fields nv tv
    intro st
    simp only [applyStatusesFromData]
    apply (StPres_applyFields fields _).1
    apply (StPres_applySystemsField fields _).1
    unfold nodeRecord recordNamePair
    rw [hnv, htv]
    simp [htnv, httv, updateSystemStatus, getS_setKey]
  | arrElem hmem _ ih =>
    rename_i elems e id' stv'
    intro st
    simp only [applyStatusesFromData]
    obtain ⟨l1, l2, rfl⟩ := List.append_of_mem hmem
    rw [applyList_append]
    simp only [applyList]
    exact (StPres_applyList l2 _).1 _ (ih _)
  | fieldVal hmem hobj _ ih =>
    rename_i fields k v id' stv'
    intro st
    simp only [applyStatusesFromData]
    obtain ⟨l1, l2, rfl⟩ := List.append_of_mem hmem
    rw [applyFields_append]
    simp only [applyFields]
    exact (StPres_applyFields l2 _).1 _ (by rw [if_pos hobj]; exact ih _)

theorem splitOnSub_append (pat : List Char) (h : Char) (t pre rest : List Char)
    (hpat : pat = h :: t) (hpre : h ∉ pre) :
    splitOnSub pat (pre ++ pat ++ rest) = some (pre, rest) := by
  induction pre with
  | nil =>
    simp only [List.nil_append]
    have hp : pat.isPrefixOf (pat ++ rest) = true := by
      rw [List.isPrefixOf_iff_prefix]
      exact List.prefix_append _ _
    cases hplit : pat ++ rest with
    | nil =>
      rcases List.append_eq_nil.mp hplit with ⟨hp1, _⟩
      rw [hpat] at hp1
      exact absurd hp1 (List.cons_ne_nil _ _)
    | cons c0 rest0 =>
      rw [← hplit]
      rw [hplit, splitOnSub, ← hplit, hp]
      simp [List.drop_left]
  | cons c pre' ih =>
    have hc : c ≠ h := by
      intro he
      exact hpre (by rw [he]; exact List.mem_cons_self _ _)
    have hpre' : h ∉ pre' := fun hm => hpre (List.mem_cons_of_mem _ hm)
    have hnp : pat.isPrefixOf (c :: (pre' ++ pat ++ rest)) = false := by
      rw [hpat]
      simp only [List.isPrefixOf]
      have : (h == c) = false := beq_eq_false_iff_ne.mpr (Ne.symm hc)
      simp [this]
    simp only [List.cons_append]
    rw [splitOnSub]
    simp only [List.append_assoc] at hnp ⊢
    rw [hnp]
    simp only [Bool.false_eq_true, if_false]
    have := ih hpre'
    simp only [List.append_assoc] at this
    rw [this]

theorem splitOnSub_none (pat : List Char) (h : Char) (t text : List Char)
    (hpat : pat = h :: t) (hh : h ∉ text) :
    splitOnSub pat text = none := by
  induction text with
  | nil =>
    rw [splitOnSub, hpat]
    simp [List.isPrefixOf]
  | cons c rest ih =>
    have hc : c ≠ h := by
      intro he
      exact hh (by rw [he]; exact List.mem_cons_self _ _)
    have hrest : h ∉ rest := fun hm => hh (List.mem_cons_of_mem _ hm)
    have hnp : pat.isPrefixOf (c :: rest) = false := by
      rw [hpat]
      simp only [List.isPrefixOf]
      have : (h == c) = false := beq_eq_false_iff_ne.mpr (Ne.symm hc)
      simp [this]
    rw [splitOnSub, hnp]
    simp only [Bool.false_eq_true, if_false]
    rw [ih hrest]

theorem splitOnSub_closeFence (c post : List Char) (hc : fenceChar ∉ c) :
    splitOnSub closeFence (c ++ closeFence ++ post) = some (c, post) := by
  induction c with
  | nil =>
    simp only [List.nil_append]
    have hp : closeFence.isPrefixOf (closeFence ++ post) = true := by
      rw [List.isPrefixOf_iff_prefix]
      exact List.prefix_append _ _
    rw [show closeFence ++ post = '\n' :: ([fenceChar, fenceChar, fenceChar] ++ post) from rfl]
    rw [splitOnSub]
    rw [show ('\n' :: ([fenceChar, fenceChar, fenceChar] ++ post)) = closeFence ++ post from rfl]
    rw [hp]
    simp [List.drop_left]
  | cons ch c' ih =>
    have hc' : fenceChar ∉ c' := fun hm => hc (List.mem_cons_of_mem _ hm)
    have hch : ch ≠ fenceChar := by
      intro he
      exact hc (by rw [he]; exact List.mem_cons_self _ _)
    have hnp : closeFence.isPrefixOf (ch :: (c' ++ closeFence ++ post)) = false := by
      by_cases hn : ch = '\n'
      · subst hn
        cases c' with
        | nil => simp [closeFence, fenceChar, List.isPrefixOf]
        | cons d c'' =>
          have hd : d ≠ fenceChar := by
            intro he
            exact hc' (by rw [he]; exact List.mem_cons_self _ _)
          have hdb : (fenceChar == d) = false := beq_eq_false_iff_ne.mpr (Ne.symm hd)
          simp [closeFence, List.isPrefixOf, hdb]
      · have hnb : (('\n' : Char) == ch) = false :=
          beq_eq_false_iff_ne.mpr (fun he => hn he.symm)
        simp [closeFence, List.isPrefixOf, hnb]
    simp only [List.cons_append]
    rw [splitOnSub]
    simp only [List.append_assoc] at hnp ⊢
    rw [hnp]
    simp only [Bool.false_eq_true, if_false]
    have := ih hc'
    simp only [List.append_assoc] at this
    rw [this]

theorem firstBlock_eq (pre c post : List Char)
    (hpre : fenceChar ∉ pre) (hc : fenceChar ∉ c) :
    firstFencedJsonBlock (pre ++ openFence ++ (c ++ closeFence ++ post)) = some c := by
  unfold firstFencedJsonBlock
  rw [splitOnSub_append openFence fenceChar
    [fenceChar, fenceChar, 'j', 's', 'o', 'n', '\n'] pre (c ++ closeFence ++ post) rfl hpre]
  dsimp only
  rw [splitOnSub_closeFence c post hc]

theorem firstBlock_none (text : List Char) (h : fenceChar ∉ text) :
    firstFencedJsonBlock text = none := by
  unfold firstFencedJsonBlock
  rw [splitOnSub_none openFence fenceChar
    [fenceChar, fenceChar, 'j', 's', 'o', 'n', '\n'] text rfl h]

theorem tick_progress (g : GameState) (h : 1 < g.timeLeft) :
    tick g = { g with timeLeft := g.timeLeft - 1 } := by
  have hn : ¬g.timeLeft ≤ 1 := by omega
  simp [tick, hn]

theorem tick_expire (g : GameState) (h : g.timeLeft ≤ 1) :
    tick g = { endGame false g with timeLeft := 0 } := by
  simp [tick, h]

theorem runTimer_not_running (n : Nat) (g : GameState)
    (h : g.timerRunning = false) : runTimer n g = g := by
  cases n <;> simp [runTimer, h]

theorem run_progress (n : Nat) (g : GameState) (hrun : g.timerRunning = true)
    (hlt : (n : Int) < g.timeLeft) :
    runTimer n g = { g with timeLeft := g.timeLeft - n } := by
  induction n generalizing g with
  | zero => simp [runTimer]
  | succ n ih =>
    simp only [runTimer, hrun, if_true]
    have h1 : 1 < g.timeLeft := by
      have : ((n : Int)) ≥ 0 := Int.natCast_nonneg n
      push_cast at hlt
      omega
    rw [tick_progress g h1]
    have hrun2 : ({ g with timeLeft := g.timeLeft - 1 } : GameState).timerRunning = true := hrun
    have hlt2 : ((n : Int)) < ({ g with timeLeft := g.timeLeft - 1 } : GameState).timeLeft := by
      show (n : Int) < g.timeLeft - 1
      push_cast at hlt
      omega
    rw [ih _ hrun2 hlt2]
    congr 1 <;> first
      | exact hrun
      | (push_cast; ring)

theorem run_expire (n : Nat) (g : GameState) (hrun : g.timerRunning = true)
    (h1 : 1 ≤ g.timeLeft) (hn : g.timeLeft ≤ (n : Int)) :
    runTimer n g =
      { g with
        timeLeft := 0
        timerRunning := false
        gameActive := false
        gameOver := true
        victory := false } := by
  induction n generalizing g with
  | zero =>
    exfalso
    push_cast at hn
    omega
  | succ n ih =>
    simp only [runTimer, hrun, if_true]
    by_cases hle : g.timeLeft ≤ 1
    · rw [tick_expire g hle]
      rw [runTimer_not_running n _ rfl]
      simp [endGame]
    · push_neg at hle
      rw [tick_progress g hle]
      have hrun2 : ({ g with timeLeft := g.timeLeft - 1 } : GameState).timerRunning = true := hrun
      have hh1 : (1 : Int) ≤ ({ g with timeLeft := g.timeLeft - 1 } : GameState).timeLeft := by
        show (1 : Int) ≤ g.timeLeft - 1
        omega
      have hh2 : ({ g with timeLeft := g.timeLeft - 1 } : GameState).timeLeft ≤ (n : Int) := by
        show g.timeLeft - 1 ≤ (n : Int)
        push_cast at hn
        omega
      rw [ih _ hrun2 hh1 hh2]

/-- The spec's reading of a successful load: the default map merged with
the stored map `m`, stored keys overriding defaults, read pointwise. -/
def mergedWithDefaults (m : List (String × String)) (k : String) : Option String :=
  (getS m k).orElse fun _ => getS defaultSystemStatuses k

/-- An application state with an empty status map and empty storage, used
as a base point for concrete evaluations. -/
def emptyApp : AppState :=
  { statuses := [], storage := Storage.missing }

def wProp : String := "PROPULSION"

def wLife : String := "LIFE SUPPORT"

def wNavig : String := "NAVIGATION"

def wOK : String := "OK"

def wSysA : String := "SYS A"

def wSysB : String := "SYS B"

def wKeyA : String := "A"

def wStatX : String := "X"

def wStatY : String := "Y"

def wPOWER : String := "POWER"

def wNAV : String := "NAV"

def wMap1 : List (String × String) := [(wProp, wOK)]

theorem jsToString_str (s : String) : jsToString (Json.str s) = s := by
  simp [jsToString]

/-- C7: the claim says load surfaces no error and logs a warning whenever
storage is missing, corrupt or inaccessible.  On missing storage the
source hits the `if (stored)` fall-through, not the catch block, so no
warning is logged there: `loadStatuses` returns the defaults with the
warning flag clear. -/
theorem c7_counterexample :
    loadStatuses Storage.missing = (defaultSystemStatuses, false) ∧
    ¬(loadStatuses Storage.missing).2 = true :=
  ⟨rfl, by decide⟩

/-- C7 (amended): on missing, corrupt, or inaccessible storage `load()`
returns the default map unchanged; the non-fatal warning is logged only on
corrupt or inaccessible storage, while missing storage yields the defaults
silently. -/
theorem c7_thm :
    loadStatuses Storage.missing = (defaultSystemStatuses, false) ∧
    loadStatuses Storage.corrupt = (defaultSystemStatuses, true) ∧
    loadStatuses Storage.inaccessible = (defaultSystemStatuses, true) :=
  ⟨rfl, rfl, rfl⟩

/-- C6: saving a map `m` (with distinct keys) and then loading yields,
pointwise, the default map merged with `m`: stored keys override defaults
and default keys absent from `m` keep their default values. -/
theorem c6_thm (m : List (String × String)) (s : Storage) (k : String)
    (hnd : (m.map Prod.fst).Nodup) :
    getS (loadStatuses (persistStatuses m s)).1 k = mergedWithDefaults m k := by
  show getS (objSpread defaultSystemStatuses m) k = _
  exact getS_objSpread _ _ _ hnd

theorem c6_witness :
    (wMap1.map Prod.fst).Nodup ∧
    getS (loadStatuses (persistStatuses wMap1 Storage.missing)).1 wProp =
      mergedWithDefaults wMap1 wProp :=
  ⟨by decide, c6_thm wMap1 Storage.missing wProp (by decide)⟩

/-- C9: after a load from any storage state the map holds the three
default subsystem keys, and a status update never removes any key (it can
only overwrite or append), so the default keys survive every update. -/
theorem c9_thm :
    (∀ s : Storage,
      (getS (loadStatuses s).1 wProp).isSome = true ∧
      (getS (loadStatuses s).1 wLife).isSome = true ∧
      (getS (loadStatuses s).1 wNavig).isSome = true) ∧
    (∀ (sys stt : String) (st : AppState) (k : String),
      (getS st.statuses k).isSome = true →
      (getS (updateSystemStatus sys stt st).statuses k).isSome = true) := by
  constructor
  · intro s
    cases s with
    | stored m =>
      refine ⟨?_, ?_, ?_⟩ <;> exact getS_objSpread_isSome _ _ _ (by decide)
    | missing => exact ⟨by decide, by decide, by decide⟩
    | corrupt => exact ⟨by decide, by decide, by decide⟩
    | inaccessible => exact ⟨by decide, by decide, by decide⟩
  · intro sys stt st k h
    simpa [updateSystemStatus] using
      getS_setKey_isSome st.statuses (jsUpper sys) (jsUpper stt) k h

theorem c9_witness :
    (getS (loadStatuses Storage.missing).1 wProp).isSome = true ∧
    (getS (updateSystemStatus wNAV wOK
      { statuses := defaultSystemStatuses, storage := Storage.missing }).statuses
        wProp).isSome = true :=
  ⟨(c9_thm.1 Storage.missing).1,
   c9_thm.2 wNAV wOK { statuses := defaultSystemStatuses, storage := Storage.missing }
     wProp (by decide)⟩

/-- C2: for any `JSON.parse` behavior, a text consisting of anything
without backticks, then a tagged fenced block whose content has no
backtick, then arbitrary trailing text (which may contain further fenced
blocks), extracts exactly the parse of the first block's content — the
parse's failure (`none`) propagating as an absent result; and a text with
no fence at all yields an absent result. -/
theorem c2_thm (parse : List Char → Option Json) :
    (∀ pre c post : List Char, fenceChar ∉ pre → fenceChar ∉ c →
      extractJson parse (pre ++ openFence ++ (c ++ closeFence ++ post)) = parse c) ∧
    (∀ text : List Char, fenceChar ∉ text → extractJson parse text = none) := by
  constructor
  · intro pre c post hpre hc
    unfold extractJson
    rw [firstBlock_eq pre c post hpre hc]
    dsimp only
    cases hpc : parse c <;> rfl
  · intro text h
    unfold extractJson
    rw [firstBlock_none text h]

def wPre : List Char := "AURA: ".toList

def wBody : List Char := "[1, 2]".toList

def wPost : List Char := " done".toList

def wParseConst : List Char → Option Json := fun _ => some Json.null

theorem c2_witness :
    extractJson wParseConst (wPre ++ openFence ++ (wBody ++ closeFence ++ wPost)) =
      wParseConst wBody ∧
    extractJson wParseConst wPost = none :=
  ⟨(c2_thm wParseConst).1 wPre wBody wPost (by decide) (by decide),
   (c2_thm wParseConst).2 wPost (by decide)⟩

/-- C3: a tick on a state whose remaining time stays positive decrements
it by exactly one and changes nothing else; a tick that would reach zero
or below clamps the time to zero and ends the game as a loss.  Running the
timer from a fresh 600-second session never makes the remaining time
negative, follows the formula `max (600 - n) 0`, is game-over exactly from
the 600th tick on (so the transition fires exactly once, between ticks 599
and 600), and never reports victory. -/
theorem c3_thm :
    (∀ g : GameState, 1 < g.timeLeft →
      tick g = { g with timeLeft := g.timeLeft - 1 }) ∧
    (∀ g : GameState, g.timeLeft ≤ 1 →
      tick g = { endGame false g with timeLeft := 0 }) ∧
    (∀ n : Nat,
      0 ≤ (runTimer n initialRun).timeLeft ∧
      (runTimer n initialRun).timeLeft = max (600 - (n : Int)) 0 ∧
      (runTimer n initialRun).gameOver = decide (600 ≤ n) ∧
      (runTimer n initialRun).victory = false) ∧
    (∀ n : Nat,
      ((runTimer n initialRun).gameOver = false ∧
        (runTimer (n + 1) initialRun).gameOver = true) ↔ n = 599) := by
  have hrun : initialRun.timerRunning = true := rfl
  have htl : initialRun.timeLeft = 600 := rfl
  have hmain : ∀ n : Nat,
      0 ≤ (runTimer n initialRun).timeLeft ∧
      (runTimer n initialRun).timeLeft = max (600 - (n : Int)) 0 ∧
      (runTimer n initialRun).gameOver = decide (600 ≤ n) ∧
      (runTimer n initialRun).victory = false := by
    intro n
    by_cases h : n < 600
    · have hcast : (n : Int) < initialRun.timeLeft := by
        rw [htl]
        exact_mod_cast h
      rw [run_progress n initialRun hrun hcast]
      refine ⟨?_, ?_, ?_, rfl⟩
      · show 0 ≤ initialRun.timeLeft - (n : Int)
        rw [htl]
        have : (n : Int) < 600 := by exact_mod_cast h
        omega
      · show initialRun.timeLeft - (n : Int) = max (600 - (n : Int)) 0
        rw [htl]
        have : (n : Int) < 600 := by exact_mod_cast h
        rw [max_eq_left (by omega)]
      · show initialRun.gameOver = decide (600 ≤ n)
        have : decide (600 ≤ n) = false := by
          rw [decide_eq_false_iff_not]
          omega
        rw [this]
        rfl
    · push_neg at h
      have hcast : initialRun.timeLeft ≤ (n : Int) := by
        rw [htl]
        exact_mod_cast h
      rw [run_expire n initialRun hrun (by rw [htl]; omega) hcast]
      refine ⟨le_refl 0, ?_, ?_, rfl⟩
      · have hc : (600 : Int) ≤ (n : Int) := by exact_mod_cast h
        rw [max_eq_right (by omega)]
      · have : decide (600 ≤ n) = true := by
          rw [decide_eq_true_eq]
          omega
        rw [this]
  refine ⟨fun g => tick_progress g, fun g => tick_expire g, hmain, ?_⟩
  intro n
  constructor
  · rintro ⟨hov1, hov2⟩
    rw [(hmain n).2.2.1] at hov1
    rw [(hmain (n + 1)).2.2.1] at hov2
    rw [decide_eq_false_iff_not] at hov1
    rw [decide_eq_true_eq] at hov2
    omega
  · rintro rfl
    constructor
    · rw [(hmain 599).2.2.1]
      decide
    · rw [(hmain 600).2.2.1]
      decide

def wGame : GameState :=
  { timeLeft := 5, gameActive := true, gameOver := false, victory := false,
    timerRunning := true }

theorem c3_witness :
    tick wGame = { wGame with timeLeft := wGame.timeLeft - 1 } ∧
    (runTimer 600 initialRun).gameOver = decide (600 ≤ 600) :=
  ⟨c3_thm.1 wGame (by decide), (c3_thm.2.2.1 600).2.2.1⟩

def wVictoryText : List Char := "SYSTEMS STABILIZED - MISSION SUCCESS".toList

def wParseNone : List Char → Option Json := fun _ => none

/-- C4: the claim says the victory marker ends the game whether the turn
came from session start or from a follow-up send.  The session-start
completion path (`startGame`) performs no marker test: on a start turn
whose text contains `MISSION SUCCESS` the session stays non-victory,
not game-over, with the timer freshly started. -/
theorem c4_counterexample :
    containsSub missionSuccessMarker (upperText wVictoryText) = true ∧
    (startGameComplete wParseNone wVictoryText emptyApp startGameReset).2.victory = false ∧
    (startGameComplete wParseNone wVictoryText emptyApp startGameReset).2.gameOver = false ∧
    (startGameComplete wParseNone wVictoryText emptyApp startGameReset).2.timerRunning = true :=
  ⟨by decide, rfl, rfl, rfl⟩

/-- C4 (amended): a follow-up send whose completed text contains the
victory marker (case-insensitively) transitions the session to the
victory-terminal state with the timer stopped; the session-start
completion path performs no victory check and always just starts the
timer. -/
theorem c4_thm :
    (∀ (parse : List Char → Option Json) (t : List Char) (st : AppState) (g : GameState),
      containsSub missionSuccessMarker (upperText t) = true →
      (handleSendComplete parse t st g).2 = endGame true g) ∧
    (∀ (parse : List Char → Option Json) (t : List Char) (st : AppState) (g : GameState),
      (startGameComplete parse t st g).2 = startTimer g) ∧
    (∀ g : GameState,
      (endGame true g).victory = true ∧ (endGame true g).gameOver = true ∧
      (endGame true g).gameActive = false ∧ (endGame true g).timerRunning = false) := by
  refine ⟨?_, ?_, ?_⟩
  · intro parse t st g h
    show (if containsSub missionSuccessMarker (upperText t) then endGame true g else g) =
      endGame true g
    rw [if_pos h]
  · intro parse t st g
    rfl
  · intro g
    exact ⟨rfl, rfl, rfl, rfl⟩

theorem c4_witness :
    (handleSendComplete wParseNone wVictoryText emptyApp initialRun).2 =
      endGame true initialRun :=
  c4_thm.1 wParseNone wVictoryText emptyApp initialRun (by decide)

/-- C8: a thrown network or API error in `startGame` leaves the transcript
holding exactly the single synthetic link-failure model message and clears
`loading`, with the session still active, so the input form is enabled for
a retry; a thrown error in `handleSend` appends the single synthetic
retry message to the transcript, leaves the game state untouched, clears
`loading`, and (the session being active) re-enables the input. -/
theorem c8_thm :
    (∀ (g : GameState) (msgs : List Message),
      (startGameOnError g msgs).2.1 = [neuralLinkFailureMsg] ∧
      neuralLinkFailureMsg.role = Role.model ∧
      (startGameOnError g msgs).2.2 = false ∧
      inputEnabled (startGameOnError g msgs).1 (startGameOnError g msgs).2.2 = true) ∧
    (∀ (msgs : List Message) (g : GameState), g.gameActive = true →
      (handleSendOnError msgs g).2.1 = msgs ++ [commInterruptedMsg] ∧
      commInterruptedMsg.role = Role.model ∧
      (handleSendOnError msgs g).1 = g ∧
      (handleSendOnError msgs g).2.2 = false ∧
      inputEnabled (handleSendOnError msgs g).1 (handleSendOnError msgs g).2.2 = true) := by
  constructor
  · intro g msgs
    exact ⟨rfl, rfl, rfl, rfl⟩
  · intro msgs g h
    refine ⟨rfl, rfl, rfl, rfl, ?_⟩
    show g.gameActive && !false = true
    rw [h]
    rfl

theorem c8_witness :
    (handleSendOnError [] startGameReset).2.1 = [] ++ [commInterruptedMsg] ∧
    inputEnabled (handleSendOnError [] startGameReset).1
      (handleSendOnError [] startGameReset).2.2 = true :=
  ⟨(c8_thm.2 [] startGameReset rfl).1, (c8_thm.2 [] startGameReset rfl).2.2.2.2⟩

def c1Fields : List (String × Json) :=
  [(kSystem, Json.str wSysA), (kName, Json.str wSysB), (kStatus, Json.str wOK)]

def c1Node : Json := Json.obj c1Fields

/-- C1: the claim says the name/status pair is recorded only when the node
has no system/status pair (an `else`).  The source has two independent
`if` statements: on a node carrying truthy `system`, `name` and `status`
fields both pairs are recorded, so starting from an empty map both keys
end up present. -/
theorem c1_counterexample :
    getS ((applyStatusesFromData c1Node emptyApp).statuses) wSysB = some wOK ∧
    getS ((applyStatusesFromData c1Node emptyApp).statuses) wSysA = some wOK := by
  have hA : jsUpper "SYS A" = "SYS A" := by decide
  have hB : jsUpper "SYS B" = "SYS B" := by decide
  have hOK : jsUpper "OK" = "OK" := by decide
  constructor <;>
    simp [c1Node, c1Fields, applyStatusesFromData, applyFields, applySystemsField,
      applyList, nodeRecord, recordSystemPair, recordNamePair, getF, kSystem,
      kName, kStatus, kSystems, jsTruthy, jsToString, updateSystemStatus, setKey,
      getS, persistStatuses, wSysA, wSysB, wOK, strEmpty, emptyApp, isObjLike,
      hA, hB, hOK]

/-- C1 (amended): at an object node the applier records (system, status)
when both fields are truthy and, independently of that (not as an
`else`), records (name, status) when both those fields are truthy; it
then recurses into each element of an array-valued `systems` field and
into every field value of object type; an array node is traversed
element-wise; non-object, non-array values are left untouched, so arrays
of non-object values contribute nothing. -/
theorem c1_thm :
    (∀ (fields : List (String × Json)) (st : AppState),
      applyStatusesFromData (Json.obj fields) st =
        applyFields fields (applySystemsField fields (nodeRecord fields st))) ∧
    (∀ (fields : List (String × Json)) (st : AppState) (sv nv tv : Json),
      getF fields kSystem = some sv → getF fields kName = some nv →
      getF fields kStatus = some tv →
      jsTruthy sv = true → jsTruthy nv = true → jsTruthy tv = true →
      nodeRecord fields st =
        updateSystemStatus (jsToString nv) (jsToString tv)
          (updateSystemStatus (jsToString sv) (jsToString tv) st)) ∧
    (∀ (elems : List Json) (st : AppState),
      applyStatusesFromData (Json.arr elems) st = applyList elems st) ∧
    (∀ (fields : List (String × Json)) (es : List Json) (st : AppState),
      getF fields kSystems = some (Json.arr es) →
      applySystemsField fields st = applyList es st) ∧
    (∀ (k : String) (v : Json) (rest : List (String × Json)) (st : AppState),
      applyFields ((k, v) :: rest) st =
        applyFields rest (if isObjLike v then applyStatusesFromData v st else st)) ∧
    (∀ e : Json, isObjLike e = false → ∀ st : AppState, applyStatusesFromData e st = st) := by
  refine ⟨?_, ?_, ?_, ?_, ?_, ?_⟩
  · intro fields st
    simp only [applyStatusesFromData]
  · intro fields st sv nv tv hsv hnv htv htsv htnv httv
    unfold nodeRecord recordSystemPair recordNamePair
    rw [hsv, hnv, htv]
    simp [htsv, htnv, httv]
  · intro elems st
    simp only [applyStatusesFromData]
  · intro fields es st hget
    rw [applySystemsField.eq_def, hget]
  · intro k v rest st
    simp only [applyFields]
  · intro e he st
    cases e with
    | null => simp [isObjLike] at he
    | bool b => simp only [applyStatusesFromData]
    | num m => simp only [applyStatusesFromData]
    | str s => simp only [applyStatusesFromData]
    | arr elems => simp [isObjLike] at he
    | obj fields => simp [isObjLike] at he

theorem c1_witness :
    applyStatusesFromData (Json.obj []) emptyApp =
      applyFields [] (applySystemsField [] (nodeRecord [] emptyApp)) ∧
    nodeRecord c1Fields emptyApp =
      updateSystemStatus (jsToString (Json.str wSysB)) (jsToString (Json.str wOK))
        (updateSystemStatus (jsToString (Json.str wSysA)) (jsToString (Json.str wOK))
          emptyApp) :=
  ⟨c1_thm.1 [] emptyApp,
   c1_thm.2.1 c1Fields emptyApp (Json.str wSysA) (Json.str wSysB) (Json.str wOK)
     rfl rfl rfl (by decide) (by decide) (by decide)⟩

def c10Fields : List (String × Json) :=
  [(kSystem, Json.str wPOWER), (kStatus, Json.str strEmpty)]

def c10Node : Json := Json.obj c10Fields

def c10CtrFields : List (String × Json) :=
  [(kSystem, Json.str strEmpty), (kName, Json.str wNAV), (kStatus, Json.str wOK)]

def c10CtrNode : Json := Json.obj c10CtrFields

/-- C10: the claim says a node whose `system`, `name` or `status` field
holds a falsy value records no update at all.  A node with a falsy
`system` but truthy `name` and `status` still records the name pair: on
`{system: "", name: "NAV", status: "OK"}` the applier writes NAV into the
map, so the node does record an update. -/
theorem c10_counterexample :
    getS ((applyStatusesFromData c10CtrNode emptyApp).statuses) wNAV = some wOK ∧
    (applyStatusesFromData c10CtrNode emptyApp).statuses ≠ [] := by
  have hN : jsUpper "NAV" = "NAV" := by decide
  have hOK : jsUpper "OK" = "OK" := by decide
  constructor <;>
    simp [c10CtrNode, c10CtrFields, applyStatusesFromData, applyFields,
      applySystemsField, applyList, nodeRecord, recordSystemPair, recordNamePair,
      getF, kSystem, kName, kStatus, kSystems, jsTruthy, jsToString,
      updateSystemStatus, setKey, getS, persistStatuses, wNAV, wOK, strEmpty,
      emptyApp, isObjLike, hN, hOK]

/-- C10 (amended): each candidate pair is gated by truthiness of its own
fields — a falsy `status` suppresses both pairs, a falsy `system`
suppresses the system pair and a falsy `name` the name pair (the other
pair may still be recorded); in particular a node such as
`{system: "POWER", status: ""}` records nothing and leaves the state
completely unchanged. -/
theorem c10_thm :
    (∀ (fields : List (String × Json)) (st : AppState),
      truthyF (getF fields kStatus) = false → nodeRecord fields st = st) ∧
    (∀ (fields : List (String × Json)) (st : AppState),
      truthyF (getF fields kSystem) = false → recordSystemPair fields st = st) ∧
    (∀ (fields : List (String × Json)) (st : AppState),
      truthyF (getF fields kName) = false → recordNamePair fields st = st) ∧
    (∀ st : AppState, applyStatusesFromData c10Node st = st) := by
  have hsys : ∀ (fields : List (String × Json)) (st : AppState),
      truthyF (getF fields kSystem) = false → recordSystemPair fields st = st := by
    intro fields st h
    unfold recordSystemPair
    cases hs : getF fields kSystem with
    | none => rfl
    | some sv =>
      rw [hs] at h
      cases ht : getF fields kStatus with
      | none => rfl
      | some tv => simp [truthyF] at h; simp [h]
  have hnm : ∀ (fields : List (String × Json)) (st : AppState),
      truthyF (getF fields kName) = false → recordNamePair fields st = st := by
    intro fields st h
    unfold recordNamePair
    cases hs : getF fields kName with
    | none => rfl
    | some nv =>
      rw [hs] at h
      cases ht : getF fields kStatus with
      | none => rfl
      | some tv => simp [truthyF] at h; simp [h]
  have hstat : ∀ (fields : List (String × Json)) (st : AppState),
      truthyF (getF fields kStatus) = false → nodeRecord fields st = st := by
    intro fields st h
    unfold nodeRecord recordSystemPair recordNamePair
    cases ht : getF fields kStatus with
    | none =>
      cases getF fields kSystem <;> cases getF fields kName <;> rfl
    | some tv =>
      rw [ht] at h
      simp only [truthyF] at h
      cases getF fields kSystem <;> cases getF fields kName <;> simp [h]
  refine ⟨hstat, hsys, hnm, ?_⟩
  intro st
  have h1 : nodeRecord c10Fields st = st :=
    hstat c10Fields st (by decide)
  have h2 : applySystemsField c10Fields st = st := by
    rw [applySystemsField.eq_def]
    have hget : getF c10Fields kSystems = none := rfl
    rw [hget]
  have h3 : applyFields c10Fields st = st := by
    simp [c10Fields, applyFields, isObjLike]
  have h0 : applyStatusesFromData c10Node st =
      applyFields c10Fields (applySystemsField c10Fields (nodeRecord c10Fields st)) := by
    simp only [c10Node, applyStatusesFromData]
  rw [h0, h1, h2, h3]

theorem c10_witness :
    truthyF (getF c10Fields kStatus) = false ∧
    nodeRecord c10Fields emptyApp = emptyApp :=
  ⟨by decide, c10_thm.1 c10Fields emptyApp (by decide)⟩

def c5Fields1 : List (String × Json) :=
  [(kSystem, Json.str wKeyA), (kStatus, Json.str wStatX)]

def c5Fields2 : List (String × Json) :=
  [(kSystem, Json.str wKeyA), (kStatus, Json.str wStatY)]

def c5Data : Json :=
  Json.arr [Json.obj c5Fields1, Json.obj c5Fields2]

theorem c5Data_records : Records c5Data wKeyA wStatX := by
  have h : Records (Json.obj c5Fields1) (jsToString (Json.str wKeyA))
      (jsToString (Json.str wStatX)) :=
    Records.sys rfl rfl (by decide) (by decide)
  rw [jsToString_str, jsToString_str] at h
  exact Records.arrElem (List.mem_cons_self _ _) h

/-- C5: the claim says the map contains, for every recorded pair, an
entry with that pair's upper-cased status as value.  With two pairs for
the same key the later write overwrites the earlier one: on
`[{system:"A",status:"X"}, {system:"A",status:"Y"}]` the pair (A, X) is
recorded yet the final map carries `A ↦ Y`, not `A ↦ X`. -/
theorem c5_counterexample :
    Records c5Data wKeyA wStatX ∧
    getS ((applyStatusesFromData c5Data emptyApp).statuses) (jsUpper wKeyA) =
      some wStatY ∧
    ¬some wStatY = some (jsUpper wStatX) := by
  have hA : jsUpper "A" = "A" := by decide
  have hX : jsUpper "X" = "X" := by decide
  have hY : jsUpper "Y" = "Y" := by decide
  refine ⟨c5Data_records, ?_, by decide⟩
  simp [c5Data, c5Fields1, c5Fields2, applyStatusesFromData, applyFields,
    applySystemsField, applyList, nodeRecord, recordSystemPair, recordNamePair,
    getF, kSystem, kName, kStatus, kSystems, jsTruthy, jsToString,
    updateSystemStatus, setKey, getS, persistStatuses, wKeyA, wStatX, wStatY,
    strEmpty, emptyApp, isObjLike, hA, hX, hY]

/-- C5 (amended): for every pair the traversal records, the resulting map
contains an entry keyed by the upper-cased identifier (whose value is the
upper-cased status of the last write for that key); each write overwrites
any existing entry for its key, and after any recording the state's
storage holds the serialization of the current map (immediate
persistence) — a traversal that records nothing leaves the state
untouched. -/
theorem c5_thm (d : Json) (id stv : String) (h : Records d id stv) (st : AppState) :
    (getS ((applyStatusesFromData d st).statuses) (jsUpper id)).isSome = true ∧
    (∀ (m : List (String × String)) (k v q : String),
      getS (setKey m k v) q = if q = k then some v else getS m q) ∧
    (applyStatusesFromData d st = st ∨
      (applyStatusesFromData d st).storage =
        Storage.stored (applyStatusesFromData d st).statuses) :=
  ⟨records_gives_key h st, getS_setKey, (StPres_apply d st).2⟩

theorem c5_witness :
    (getS ((applyStatusesFromData c5Data emptyApp).statuses) (jsUpper wKeyA)).isSome =
      true :=
  (c5_thm c5Data wKeyA wStatX c5Data_records emptyApp).1
